import Mathlib

/-!
Verification development for the hu5-events scraper (`scrape-hull-venues.js`).

The JavaScript source is shallowly embedded: each JS function used by the
claims is translated to an executable Lean definition operating on `List Char`
(JS strings) and plain data (JS numbers become `Nat`/`Int` milliseconds).
Regular-expression operations are translated to explicit scanners that follow
the JS regex semantics (leftmost match, greedy quantifiers with backtracking,
`\b` word boundaries, global replacement scanning the original string).

External library behaviour is modelled at its interface:
`he.decode` is the identity on entity-free text (all inputs considered here
contain no HTML entities), and `dayjs` date arithmetic is modelled at the
level of civil (calendar) dates and epoch milliseconds.
-/

set_option maxHeartbeats 4000000
set_option maxRecDepth 20000

/-! ## Character-level utilities (JS string primitives) -/

/-- JS word character class `\w` = `[A-Za-z0-9_]`. -/
def isWordChar (c : Char) : Bool := c.isAlpha || c.isDigit || c == '_'

/-- JS whitespace class `\s` (the members that occur in scraped text):
space, tab, newline, carriage return, vertical tab, form feed,
no-break space, BOM. -/
def isJsWs (c : Char) : Bool :=
  c == ' ' || c == '\t' || c == '\n' || c == '\r' || c == '\x0b' ||
  c == '\x0c' || c == ' ' || c == '﻿'

/-- Character list of a JS string. -/
abbrev Chars := List Char

/-- JS `String.prototype.trim`: strip leading and trailing whitespace. -/
def jsTrim (cs : Chars) : Chars :=
  ((cs.dropWhile isJsWs).reverse.dropWhile isJsWs).reverse

/-- JS `String.prototype.toLowerCase` (ASCII range; inputs here are ASCII
plus `£` and `’`, which lowercase to themselves). -/
def lowerChars (cs : Chars) : Chars := cs.map Char.toLower

/-- Model of the external `he.decode` entity decoder: the identity on
entity-free text. All strings considered in this development contain no
HTML entities. -/
def heDecode (s : String) : String := s

/-- Collapse every run of JS whitespace to a single space
(JS `.replace(/\s+/g, " ")`); the flag records whether the previous
character belonged to a whitespace run. -/
def collapseWsAux : Bool → Chars → Chars
  | _, [] => []
  | prevWs, c :: cs =>
    if isJsWs c then
      if prevWs then collapseWsAux true cs
      else ' ' :: collapseWsAux true cs
    else c :: collapseWsAux false cs

/-- Collapse every run of JS whitespace to a single space. -/
def collapseWs (cs : Chars) : Chars := collapseWsAux false cs

/-- Source `normalizeWhitespace`: decode entities, turn NBSP into a space,
collapse whitespace runs, trim. -/
def normalizeWhitespace (s : String) : String :=
  String.mk (jsTrim (collapseWs
    ((heDecode s).data.map (fun c => if c == ' ' then ' ' else c))))

/-- Numeric value of a list of ASCII digits (JS `parseInt(…, 10)` on a
short all-digit string). -/
def digitsVal (cs : Chars) : Nat :=
  cs.foldl (fun a c => a * 10 + (c.toNat - 48)) 0

/-- Greedy take of at most `n` leading ASCII digits; returns (digits, rest). -/
def takeDigits : Nat → Chars → Chars × Chars
  | 0, s => ([], s)
  | _ + 1, [] => ([], [])
  | n + 1, c :: cs =>
    if c.isDigit then
      let (ds, r) := takeDigits n cs
      (c :: ds, r)
    else ([], c :: cs)

/-- Greedy take of leading JS whitespace; returns (whitespace, rest). -/
def takeWs : Chars → Chars × Chars
  | [] => ([], [])
  | c :: cs =>
    if isJsWs c then
      let (ws, r) := takeWs cs
      (c :: ws, r)
    else ([], c :: cs)

/-- Drop leading JS whitespace (regex `\s*`, greedy). -/
def dropWs (cs : Chars) : Chars := (takeWs cs).2

/-- Case-insensitive literal match: if `cs` starts with `pat` (ASCII
case-insensitively), return the rest. -/
def matchLitCI : Chars → Chars → Option Chars
  | [], cs => some cs
  | _, [] => none
  | p :: ps, c :: cs =>
    if p.toLower == c.toLower then matchLitCI ps cs else none

/-- Word boundary `\b` holds before the current position when the previous
character (none at string start) and the current character disagree on
wordness. For a pattern starting with a word character this reduces to
"no word character before". -/
def noWordBefore (prev : Option Char) : Bool :=
  match prev with
  | none => true
  | some p => !isWordChar p

/-- Word boundary `\b` after a word character: next character is absent or
not a word character. -/
def noWordAfter : Chars → Bool
  | [] => true
  | c :: _ => !isWordChar c

/-- Generic global regex replacement (JS `.replace(/…/g, …)`): scan the
original string left to right; at each position try the matcher (which
receives the previous original character for `\b` lookbehind and returns
the replacement plus the rest after the match); on a match, emit the
replacement and resume after the matched segment, otherwise keep the
character and advance. Fuel bounds the recursion; every matcher consumes
at least one character, so `length + 1` fuel is always sufficient. -/
def replAll (m : Option Char → Chars → Option (Chars × Chars)) :
    Nat → Option Char → Chars → Chars
  | 0, _, s => s
  | _ + 1, _, [] => []
  | fuel + 1, prev, c :: cs =>
    match m prev (c :: cs) with
    | some (repl, rest) =>
      if rest.length < (c :: cs).length then
        let consumed := (c :: cs).length - rest.length
        let last := ((c :: cs).take consumed).getLastD c
        repl ++ replAll m fuel (some last) rest
      else c :: replAll m fuel (some c) cs
    | none => c :: replAll m fuel (some c) cs

/-- Run a global replacement pass over a whole character list. -/
def runRepl (m : Option Char → Chars → Option (Chars × Chars))
    (cs : Chars) : Chars :=
  replAll m (cs.length + 1) none cs

/-- Generic regex search (JS `.match(/…/)`): return the payload of the
leftmost position where the matcher succeeds. -/
def findFirst (m : Option Char → Chars → Option α) :
    Option Char → Chars → Option α
  | _, [] => none
  | prev, c :: cs =>
    match m prev (c :: cs) with
    | some r => some r
    | none => findFirst m (some c) cs

/-- Run a search over a whole character list. -/
def runFind (m : Option Char → Chars → Option α) (cs : Chars) : Option α :=
  findFirst m none cs

/-! ## cleanTimeCandidate — price / label stripping passes

Source (`scrape-hull-venues.js`, `cleanTimeCandidate`): lower-case and trim,
then eight global replacements in order: £ prices and £ price ranges; bare
decimals followed by a fee word; currency-less price ranges; dotted times to
colon times; label ("jelly") words; "till late" phrases; the bare word
"late"; trailing range ends; finally trim. -/

/-- Monetary amount `\d{1,3}(?:\.\d{2})?`: greedy digits, then an optional
two-decimal fraction (skipped when not exactly matchable, as the regex
optional group does). Returns the rest after the amount. -/
def matchAmount (s : Chars) : Option Chars :=
  let (ds, r) := takeDigits 3 s
  if ds.isEmpty then none
  else
    match r with
    | '.' :: a :: b :: r2 =>
      if a.isDigit && b.isDigit then some r2 else some r
    | _ => some r

/-- Greedy tail loop `(?:\s*\/\s*£?\s*amount)*` of the £ price pattern:
repeatedly consume a slash-separated further amount; stop at the first
iteration that does not fully match. -/
def priceTailLoop : Nat → Chars → Chars
  | 0, s => s
  | fuel + 1, s =>
    let r1 := dropWs s
    match r1 with
    | '/' :: r2 =>
      let r3 := dropWs r2
      let r4 := match r3 with
                | '£' :: r => dropWs r
                | _ => r3
      match matchAmount r4 with
      | some r5 => priceTailLoop fuel r5
      | none => s
    | _ => s

/-- Pass 1, `/£\s*\d{1,3}(?:\.\d{2})?(?:\s*\/\s*£?\s*\d{1,3}(?:\.\d{2})?)*\/g`:
strip £ amounts and £ price ranges. -/
def matchPriceGBP (_prev : Option Char) (s : Chars) :
    Option (Chars × Chars) :=
  match s with
  | '£' :: r0 =>
    let r1 := dropWs r0
    match matchAmount r1 with
    | some r2 => some ([], priceTailLoop r2.length r2)
    | none => none
  | _ => none

/-- Lookahead `(?=\s*(?:adv|otd|door|entry|tickets?|\+?bf|\+?fee|\+?fees))`
(case-insensitive): after optional whitespace, one of the fee words appears
as a prefix. -/
def feeWordAhead (s : Chars) : Bool :=
  let r := dropWs s
  let pfx := fun (w : String) (t : Chars) => (matchLitCI w.data t).isSome
  pfx ("adv") r || pfx ("otd") r || pfx ("door") r || pfx ("entry") r ||
  pfx ("ticket") r || pfx ("bf") r || pfx ("fee") r ||
  (match r with
   | '+' :: r2 => pfx ("bf") r2 || pfx ("fee") r2
   | _ => false)

/-- Pass 2, `/\b\d{1,3}\.\d{2}\b(?=\s*(?:adv|otd|…))/gi`: strip bare
decimals that are prices because a fee word follows. Digit backtracking
cannot help here (releasing a digit puts a digit where the dot must be),
so the greedy take is exact. -/
def matchPriceFee (prev : Option Char) (s : Chars) :
    Option (Chars × Chars) :=
  if !noWordBefore prev then none
  else
    let (ds, r) := takeDigits 3 s
    if ds.isEmpty then none
    else
      match r with
      | '.' :: a :: b :: r2 =>
        if a.isDigit && b.isDigit && noWordAfter r2 && feeWordAhead r2 then
          some ([], r2)
        else none
      | _ => none

/-- Second amount of the currency-less range pattern, including its final
`\b`: an optional decimal part is kept only when the boundary after it
holds, otherwise the regex backtracks to the bare digits (whose boundary
then holds automatically, the next character being the dot). -/
def matchAmountBdry (s : Chars) : Option Chars :=
  let (ds, r) := takeDigits 3 s
  if ds.isEmpty then none
  else
    match r with
    | '.' :: a :: b :: r2 =>
      if a.isDigit && b.isDigit && noWordAfter r2 then some r2
      else if noWordAfter r then some r else none
    | _ => if noWordAfter r then some r else none

/-- Pass 3, `/\b\d{1,3}(?:\.\d{2})?\s*\/\s*\d{1,3}(?:\.\d{2})?\b/g`:
strip currency-less price ranges such as `10/12` or `8.50/10.50`. The
first amount's optional decimals backtrack when the slash does not
follow them. -/
def matchPriceRange (prev : Option Char) (s : Chars) :
    Option (Chars × Chars) :=
  if !noWordBefore prev then none
  else
    let (ds, r) := takeDigits 3 s
    if ds.isEmpty then none
    else
      let cont := fun (t : Chars) =>
        match dropWs t with
        | '/' :: t2 =>
          match matchAmountBdry (dropWs t2) with
          | some t3 => some (([] : Chars), t3)
          | none => none
        | _ => none
      match r with
      | '.' :: a :: b :: r2 =>
        if a.isDigit && b.isDigit then
          match cont r2 with
          | some res => some res
          | none => cont r
        else cont r
      | _ => cont r

/-- Pass 4, `/\b(\d{1,2})\.(\d{2})\b/g` → `"$1:$2"`: convert dotted times
(`8.30` → `8:30`) after prices have been removed. -/
def matchDotted (prev : Option Char) (s : Chars) :
    Option (Chars × Chars) :=
  if !noWordBefore prev then none
  else
    let (ds, r) := takeDigits 2 s
    if ds.isEmpty then none
    else
      match r with
      | '.' :: a :: b :: r2 =>
        if a.isDigit && b.isDigit && noWordAfter r2 then
          some (ds ++ ':' :: a :: b :: [], r2)
        else none
      | _ => none

/-- Match one label-word alternative of pass 5 with its trailing `\b`:
the alternation `doors?|from|start(?:s)?|show(?:time)?|music` tried in
order, the optional suffix greedily (longer form first). Returns the rest
after the word. -/
def matchJellyWord (s : Chars) : Option Chars :=
  let tryWord := fun (w : String) =>
    match matchLitCI w.data s with
    | some r => if noWordAfter r then some r else none
    | none => none
  match tryWord ("doors") with
  | some r => some r
  | none =>
  match tryWord ("door") with
  | some r => some r
  | none =>
  match tryWord ("from") with
  | some r => some r
  | none =>
  match tryWord ("starts") with
  | some r => some r
  | none =>
  match tryWord ("start") with
  | some r => some r
  | none =>
  match tryWord ("showtime") with
  | some r => some r
  | none =>
  match tryWord ("show") with
  | some r => some r
  | none => tryWord ("music")

/-- Pass 5, `/\b(doors?|from|start(?:s)?|show(?:time)?|music)\b\s*[:\-–]?\s*/g`:
strip label words together with an optional following separator. -/
def matchJelly (prev : Option Char) (s : Chars) :
    Option (Chars × Chars) :=
  if !noWordBefore prev then none
  else
    match matchJellyWord s with
    | none => none
    | some r =>
      let t1 := dropWs r
      let t2 := match t1 with
                | ':' :: t => dropWs t
                | '-' :: t => dropWs t
                | '–' :: t => dropWs t
                | _ => t1
      some ([], t2)

/-- Pass 6, `/\b(?:till|’?\s*til|til)\s*late\b/g`: strip "till late"
phrases. The alternation backtracks into the continuation, and the `\b`
before a leading `’` needs a word character on the left instead. -/
def matchTillLate (prev : Option Char) (s : Chars) :
    Option (Chars × Chars) :=
  let lateAfter := fun (t : Chars) =>
    match matchLitCI ("late").data (dropWs t) with
    | some r2 => if noWordAfter r2 then some (([] : Chars), r2) else none
    | none => none
  let tilAlt := fun (t : Chars) =>
    match matchLitCI ("till").data t with
    | some r => match lateAfter r with
                | some res => some res
                | none =>
                  match matchLitCI ("til").data t with
                  | some r2 => lateAfter r2
                  | none => none
    | none =>
      match matchLitCI ("til").data t with
      | some r2 => lateAfter r2
      | none => none
  match s with
  | '’' :: r0 =>
    if noWordBefore prev then none
    else
      match matchLitCI ("til").data (dropWs r0) with
      | some r => lateAfter r
      | none => none
  | c :: _ =>
    if isJsWs c then
      if noWordBefore prev then none
      else
        match matchLitCI ("til").data (dropWs s) with
        | some r => lateAfter r
        | none => none
    else if noWordBefore prev then tilAlt s
    else none
  | [] => none

/-- Pass 7, `/\blate\b/g`: strip the bare word "late". -/
def matchLate (prev : Option Char) (s : Chars) :
    Option (Chars × Chars) :=
  if !noWordBefore prev then none
  else
    match matchLitCI ("late").data s with
    | some r => if noWordAfter r then some ([], r) else none
    | none => none

/-- End of the trailing-range pattern after its digits (last consumed
character a digit): `\s*(?:am|pm)?\b` with regex backtracking — first the
greedy path through whitespace and a meridiem, then the boundary after
the whitespace (next character a word character), then zero whitespace
(boundary after the digit). -/
def rangeEnd (t : Chars) : Option Chars :=
  let (_, r1) := takeWs t
  let meridiem :=
    match matchLitCI ("am").data r1 with
    | some r2 => some r2
    | none => matchLitCI ("pm").data r1
  match meridiem with
  | some r2 => if noWordAfter r2 then some r2 else fallback
  | none => fallback
where
  fallback :=
    let (ws, r1) := takeWs t
    if !ws.isEmpty && (match r1 with
                       | c :: _ => isWordChar c
                       | [] => false) then some r1
    else if noWordAfter t then some t
    else none

/-- Pass 8, `/\s*[–-]\s*\d{1,2}(?::\d{2})?\s*(?:am|pm)?\b/g`: strip a
trailing range end such as `– 11pm`. The optional minutes backtrack when
the pattern end cannot be placed after them. -/
def matchTrailRange (_prev : Option Char) (s : Chars) :
    Option (Chars × Chars) :=
  let (_, r0) := takeWs s
  match r0 with
  | d :: r1 =>
    if d == '-' || d == '–' then
      let r2 := dropWs r1
      let (ds, r3) := takeDigits 2 r2
      if ds.isEmpty then none
      else
        let afterMin :=
          match r3 with
          | ':' :: a :: b :: r4 =>
            if a.isDigit && b.isDigit then
              match rangeEnd r4 with
              | some r5 => some r5
              | none => rangeEnd r3
            else rangeEnd r3
          | _ => rangeEnd r3
        match afterMin with
        | some r5 => some ([], r5)
        | none => none
    else none
  | [] => none

/-- Source `cleanTimeCandidate`: trim and lower-case, then the eight
stripping passes in source order, then trim. -/
def cleanTimeCandidate (input : String) : String :=
  let s0 := lowerChars (jsTrim input.data)
  let s1 := runRepl matchPriceGBP s0
  let s2 := runRepl matchPriceFee s1
  let s3 := runRepl matchPriceRange s2
  let s4 := runRepl matchDotted s3
  let s5 := runRepl matchJelly s4
  let s6 := runRepl matchTillLate s5
  let s7 := runRepl matchLate s6
  let s8 := runRepl matchTrailRange s7
  String.mk (jsTrim s8)

/-! ## to24h — time normalisation to "HH:mm" -/

/-- Meridiem token `am`/`pm` (case-insensitive): returns whether it is pm
and the rest. -/
def matchMeridiem (s : Chars) : Option (Bool × Chars) :=
  match matchLitCI ("am").data s with
  | some r => some (false, r)
  | none =>
    match matchLitCI ("pm").data s with
    | some r => some (true, r)
    | none => none

/-- JS `String(x).padStart(2, "0")` for a natural number: two-digit
zero-padding that never truncates longer numerals. -/
def pad2 (n : Nat) : String :=
  if n < 10 then "0" ++ Nat.repr n else Nat.repr n

/-- Output shape of every `to24h` success branch:
`String(hh).padStart(2,"0") + ":" + String(mm).padStart(2,"0")`. -/
def mkHHMM (hh mm : Nat) : String := pad2 hh ++ ":" ++ pad2 mm

/-- Conversion of a 12-hour reading to 24-hour as in the source:
add 12 for pm except at 12, map 12 am to 0; no range validation. -/
def conv12 (hh : Nat) (isPm : Bool) : Nat :=
  if isPm && hh != 12 then hh + 12
  else if !isPm && hh == 12 then 0 else hh

/-- Branch 1 matcher `\b(\d{1,2})(?::(\d{2}))\s*(am|pm)\b/i`:
12-hour time with minutes and meridiem; payload (hour, minutes, pm?). -/
def matchB1 (prev : Option Char) (s : Chars) :
    Option (Nat × Nat × Bool) :=
  if !noWordBefore prev then none
  else
    let (ds, r) := takeDigits 2 s
    if ds.isEmpty then none
    else
      match r with
      | ':' :: a :: b :: r2 =>
        if a.isDigit && b.isDigit then
          match matchMeridiem (dropWs r2) with
          | some (pm, r3) =>
            if noWordAfter r3 then
              some (digitsVal ds, digitsVal (a :: b :: []), pm)
            else none
          | none => none
        else none
      | _ => none

/-- Branch 2 matcher `\b(\d{1,2})\s*(am|pm)\b/i`: bare 12-hour hour with
meridiem; payload (hour, pm?). -/
def matchB2 (prev : Option Char) (s : Chars) : Option (Nat × Bool) :=
  if !noWordBefore prev then none
  else
    let (ds, r) := takeDigits 2 s
    if ds.isEmpty then none
    else
      match matchMeridiem (dropWs r) with
      | some (pm, r2) =>
        if noWordAfter r2 then some (digitsVal ds, pm) else none
      | none => none

/-- Branch 3 matcher
`\b(\d{1,2}(?::\d{2})?\s*(?:am|pm))\s*[–-]\s*\d{1,2}(?::\d{2})?\s*(?:am|pm)?\b/i`:
a time range; payload is the captured first time (which always carries a
meridiem). The optional minutes of either side backtrack as in pass 8. -/
def matchB3 (prev : Option Char) (s : Chars) : Option Chars :=
  if !noWordBefore prev then none
  else
    let (ds, r) := takeDigits 2 s
    if ds.isEmpty then none
    else
      let firstTail := fun (t : Chars) =>
        let (ws, t1) := takeWs t
        match matchMeridiem t1 with
        | some (_, t2) => some (ws ++ t1.take 2, t2)
        | none => none
      let afterFirst :=
        match r with
        | ':' :: a :: b :: r2 =>
          if a.isDigit && b.isDigit then
            match firstTail r2 with
            | some (mid, t2) => some (ds ++ ':' :: a :: b :: mid, t2)
            | none =>
              match firstTail r with
              | some (mid, t2) => some (ds ++ mid, t2)
              | none => none
          else
            match firstTail r with
            | some (mid, t2) => some (ds ++ mid, t2)
            | none => none
        | _ =>
          match firstTail r with
          | some (mid, t2) => some (ds ++ mid, t2)
          | none => none
      match afterFirst with
      | none => none
      | some (grp, t2) =>
        let t3 := dropWs t2
        match t3 with
        | d :: t4 =>
          if d == '-' || d == '–' then
            let t5 := dropWs t4
            let (ds2, t6) := takeDigits 2 t5
            if ds2.isEmpty then none
            else
              let fin :=
                match t6 with
                | ':' :: a :: b :: t7 =>
                  if a.isDigit && b.isDigit then
                    match rangeEnd t7 with
                    | some _ => some ()
                    | none => (rangeEnd t6).map (fun _ => ())
                  else (rangeEnd t6).map (fun _ => ())
                | _ => (rangeEnd t6).map (fun _ => ())
              fin.map (fun _ => grp)
          else none
        | [] => none

/-- Branch 4 matcher `\b(\d{1,2}):(\d{2})\b`: 24-hour time; payload
(hour, minutes). -/
def matchB4 (prev : Option Char) (s : Chars) : Option (Nat × Nat) :=
  if !noWordBefore prev then none
  else
    let (ds, r) := takeDigits 2 s
    if ds.isEmpty then none
    else
      match r with
      | ':' :: a :: b :: r2 =>
        if a.isDigit && b.isDigit && noWordAfter r2 then
          some (digitsVal ds, digitsVal (a :: b :: []))
        else none
      | _ => none

/-- Source `to24h` with explicit recursion fuel. The only recursive call
(the range branch) re-enters with the captured first time, which always
carries a meridiem and is therefore resolved by branch 1 or 2, so depth 2
suffices. -/
def to24hAux : Nat → String → Option String
  | 0, _ => none
  | fuel + 1, raw =>
    if raw.isEmpty then none
    else
      let s := (cleanTimeCandidate raw).data
      match runFind matchB1 s with
      | some (hh, mm, pm) => some (mkHHMM (conv12 hh pm) mm)
      | none =>
        match runFind matchB2 s with
        | some (hh, pm) => some (mkHHMM (conv12 hh pm) 0)
        | none =>
          match runFind matchB3 s with
          | some grp => to24hAux fuel (String.mk grp)
          | none =>
            match runFind matchB4 s with
            | some (hh, mm) => some (mkHHMM (min 23 hh) (min 59 mm))
            | none => none

/-- Source `to24h`: normalise a time-ish string to `"HH:mm"`, or `none`. -/
def to24h (raw : String) : Option String := to24hAux 2 raw

/-! ## extractTimeFrom — locating a time candidate in free text -/

/-- Search `\b\d{1,2}[:.]\d{2}\s*(am|pm)\b/i`: returns the matched text. -/
def matchS1 (prev : Option Char) (s : Chars) : Option Chars :=
  if !noWordBefore prev then none
  else
    let (ds, r) := takeDigits 2 s
    if ds.isEmpty then none
    else
      match r with
      | sep :: a :: b :: r2 =>
        if (sep == ':' || sep == '.') && a.isDigit && b.isDigit then
          let (ws, r3) := takeWs r2
          match matchMeridiem r3 with
          | some (_, r4) =>
            if noWordAfter r4 then
              some (ds ++ sep :: a :: b :: (ws ++ r3.take 2))
            else none
          | none => none
        else none
      | _ => none

/-- Search `\b\d{1,2}[:.]\d{2}\b`: returns the matched text. -/
def matchS2 (prev : Option Char) (s : Chars) : Option Chars :=
  if !noWordBefore prev then none
  else
    let (ds, r) := takeDigits 2 s
    if ds.isEmpty then none
    else
      match r with
      | sep :: a :: b :: r2 =>
        if (sep == ':' || sep == '.') && a.isDigit && b.isDigit &&
            noWordAfter r2 then
          some (ds ++ sep :: a :: b :: [])
        else none
      | _ => none

/-- Search `\b\d{1,2}\s*(am|pm)\b/i`: returns the matched text. -/
def matchS3 (prev : Option Char) (s : Chars) : Option Chars :=
  if !noWordBefore prev then none
  else
    let (ds, r) := takeDigits 2 s
    if ds.isEmpty then none
    else
      let (ws, r2) := takeWs r
      match matchMeridiem r2 with
      | some (_, r3) =>
        if noWordAfter r3 then some (ds ++ ws ++ r2.take 2) else none
      | none => none

/-- Search `\bdoors?\s*[:\-]?\s*(\d{1,2}(?::\d{2})?(?:\s*(am|pm))?)\b/i`:
returns the captured group (the time after the "doors" label). The
optional meridiem part backtracks when the final boundary fails. -/
def matchS4 (prev : Option Char) (s : Chars) : Option Chars :=
  if !noWordBefore prev then none
  else
    let afterWord :=
      match matchLitCI ("doors").data s with
      | some r => some r
      | none => matchLitCI ("door").data s
    match afterWord with
    | none => none
    | some r =>
      let t1 := dropWs r
      let t2 := match t1 with
                | ':' :: t => dropWs t
                | '-' :: t => dropWs t
                | _ => t1
      let (ds, t3) := takeDigits 2 t2
      if ds.isEmpty then none
      else
        let finish := fun (core : Chars) (t4 : Chars) =>
          let (ws, t5) := takeWs t4
          match matchMeridiem t5 with
          | some (_, t6) =>
            if noWordAfter t6 then some (core ++ ws ++ t5.take 2)
            else if noWordAfter t4 then some core else none
          | none => if noWordAfter t4 then some core else none
        match t3 with
        | ':' :: a :: b :: t4 =>
          if a.isDigit && b.isDigit then
            match finish (ds ++ ':' :: a :: b :: []) t4 with
            | some g => some g
            | none => finish ds t3
          else finish ds t3
        | _ => finish ds t3

/-- First replacement `/\s*(am|pm)$/i` → `" $1"` of `extractTimeFrom`:
when the string ends with a meridiem, replace that meridiem and the
whitespace run before it by a space and the meridiem. -/
def fixTrailMeridiem (cs : Chars) : Chars :=
  let r := cs.reverse
  match r with
  | b :: a :: rest =>
    if (a.toLower == 'a' || a.toLower == 'p') && b.toLower == 'm' then
      (' ' :: a :: b :: []).reverse ++ rest.dropWhile isJsWs
        |>.reverse
    else cs
  | _ => cs

/-- Second replacement `/^(\d{1,2})(am|pm)$/i` → `"$1:00 $2"`. -/
def fixBareMeridiem (cs : Chars) : Chars :=
  let (ds, r) := takeDigits 2 cs
  if ds.isEmpty then cs
  else
    match matchMeridiem r with
    | some (_, []) => ds ++ (':' :: '0' :: '0' :: ' ' :: []) ++ r.take 2
    | _ => cs

/-- Third replacement `/^(\d{1,2})(?!:)/` → `"$1:00"`: greedy leading
digits with a negative lookahead for a colon, backtracking from two
digits to one (so `"10:25"` becomes `"1:000:25"`). -/
def fixBareHour (cs : Chars) : Chars :=
  match cs with
  | a :: b :: rest =>
    if a.isDigit && b.isDigit then
      match rest with
      | ':' :: _ => a :: (':' :: '0' :: '0' :: []) ++ b :: rest
      | _ => a :: b :: (':' :: '0' :: '0' :: []) ++ rest
    else if a.isDigit && b != ':' then
      a :: (':' :: '0' :: '0' :: []) ++ b :: rest
    else cs
  | a :: [] =>
    if a.isDigit then a :: (':' :: '0' :: '0' :: []) else cs
  | [] => cs

/-- Source `extractTimeFrom`: normalise whitespace, locate a time-like
candidate by the four prioritised searches, clean it, then apply the
three shaping replacements. -/
def extractTimeFrom (text : String) : String :=
  let t := (normalizeWhitespace text).data
  let raw :=
    match runFind matchS1 t with
    | some r => some r
    | none =>
      match runFind matchS2 t with
      | some r => some r
      | none =>
        match runFind matchS3 t with
        | some r => some r
        | none => runFind matchS4 t
  match raw with
  | none => ""
  | some r =>
    let c := (cleanTimeCandidate (String.mk r)).data
    String.mk (fixBareHour (fixBareMeridiem (fixTrailMeridiem c)))

/-! ## Civil dates and Europe/London time

The scraper anchors all date arithmetic to `TZ = "Europe/London"`. Dayjs
instants are modelled as epoch milliseconds (`Int`); calendar dates as
`Civil` records. Start-of-day instants in a fixed zone are strictly
monotone in the civil date, so `dayjs` comparisons of London midnights
are modelled as lexicographic comparisons of civil dates. -/

/-- Calendar date (proleptic Gregorian). -/
structure Civil where
  year : Int
  month : Int
  day : Int
deriving DecidableEq, Repr

/-- Leap-year test. -/
def isLeap (y : Int) : Bool :=
  y % 4 == 0 && (y % 100 != 0 || y % 400 == 0)

/-- Days in a month (31 outside 1..12, keeping the function total). -/
def daysInMonth (y m : Int) : Int :=
  if m == 2 then (if isLeap y then 29 else 28)
  else if m == 4 || m == 6 || m == 9 || m == 11 then 30
  else 31

/-- Days since 1970-01-01 of a civil date (standard era-based algorithm). -/
def daysFromCivil (c : Civil) : Int :=
  let y := if c.month ≤ 2 then c.year - 1 else c.year
  let era := Int.fdiv y 400
  let yoe := y - era * 400
  let mp := if c.month > 2 then c.month - 3 else c.month + 9
  let doy := Int.fdiv (153 * mp + 2) 5 + c.day - 1
  let doe := yoe * 365 + Int.fdiv yoe 4 - Int.fdiv yoe 100 + doy
  era * 146097 + doe - 719468

/-- Civil date of a days-since-epoch count (inverse of `daysFromCivil`). -/
def civilFromDays (z0 : Int) : Civil :=
  let z := z0 + 719468
  let era := Int.fdiv z 146097
  let doe := z - era * 146097
  let yoe := Int.fdiv
    (doe - Int.fdiv doe 1460 + Int.fdiv doe 36524 - Int.fdiv doe 146096) 365
  let y := yoe + era * 400
  let doy := doe - (365 * yoe + Int.fdiv yoe 4 - Int.fdiv yoe 100)
  let mp := Int.fdiv (5 * doy + 2) 153
  let d := doy - Int.fdiv (153 * mp + 2) 5 + 1
  let m := if mp < 10 then mp + 3 else mp - 9
  ⟨if m ≤ 2 then y + 1 else y, m, d⟩

/-- Lexicographic strict order on civil dates; models `dayjs.isBefore` on
the corresponding start-of-day instants in a fixed timezone. -/
def civilLt (a b : Civil) : Bool :=
  a.year < b.year ||
  (a.year == b.year &&
    (a.month < b.month || (a.month == b.month && a.day < b.day)))

/-- JS `new Date(y, mo-1, d)` day-of-month normalisation for `1 ≤ d ≤ 31`
(also the behaviour of the non-strict dayjs format parse the source uses):
a day beyond the month length carries into the following month. One carry
suffices because the carried remainder is at most `31 - 28 = 3`. -/
def rollCivil (y m d : Int) : Civil :=
  if d ≤ daysInMonth y m then ⟨y, m, d⟩
  else if m == 12 then ⟨y + 1, 1, d - daysInMonth y m⟩
  else ⟨y, m + 1, d - daysInMonth y m⟩

/-- Dayjs `.add(1, "year")`: same calendar date next year, the day clamped
to the month length (Feb 29 → Feb 28). -/
def addOneYear (c : Civil) : Civil :=
  ⟨c.year + 1, c.month, min c.day (daysInMonth (c.year + 1) c.month)⟩

/-- Dayjs `.format("D/M/YYYY")`: unpadded day and month. -/
def formatDMY (c : Civil) : String :=
  Int.repr c.day ++ "/" ++ Int.repr c.month ++ "/" ++ Int.repr c.year

/-- Day of week of a days-since-epoch count, Sunday = 0
(1970-01-01 was a Thursday). -/
def dayOfWeek (z : Int) : Int := Int.emod (z + 4) 7

/-- Days-since-epoch of the last Sunday of a month. -/
def lastSundayOf (y m : Int) : Int :=
  let last := daysFromCivil ⟨y, m, daysInMonth y m⟩
  last - dayOfWeek last

/-- Milliseconds per day. -/
def msPerDay : Int := 86400000

/-- Milliseconds per hour. -/
def msPerHour : Int := 3600000

/-- British Summer Time test for a UTC instant: BST runs from 01:00 UTC on
the last Sunday of March to 01:00 UTC on the last Sunday of October
(current-era IANA rules for Europe/London). -/
def isBST (ms : Int) : Bool :=
  let y := (civilFromDays (Int.fdiv ms msPerDay)).year
  let bstStart := lastSundayOf y 3 * msPerDay + msPerHour
  let bstEnd := lastSundayOf y 10 * msPerDay + msPerHour
  bstStart ≤ ms && ms < bstEnd

/-- UTC offset of Europe/London at a UTC instant, in milliseconds. -/
def londonOffset (ms : Int) : Int := if isBST ms then msPerHour else 0

/-- Civil date of an instant in Europe/London
(dayjs `.tz("Europe/London")` calendar date). -/
def msToLondonCivil (ms : Int) : Civil :=
  civilFromDays (Int.fdiv (ms + londonOffset ms) msPerDay)

/-- Instant (epoch ms) of the London midnight beginning the London civil
day containing `ms` (dayjs `.tz(TZ).startOf("day")`). At a London local
midnight BST is in force exactly when the date lies strictly after the
last Sunday of March and at most the last Sunday of October (transitions
happen at 01:00 UTC, after midnight). -/
def londonStartOfDay (ms : Int) : Int :=
  let c := msToLondonCivil ms
  let z := daysFromCivil c
  let bstAtMidnight :=
    lastSundayOf c.year 3 < z && z ≤ lastSundayOf c.year 10
  z * msPerDay - (if bstAtMidnight then msPerHour else 0)

/-- Dayjs `.format("YYYY-MM-DD")` (zero-padded). -/
def formatYMD (c : Civil) : String :=
  Int.repr c.year ++ "-" ++
  (if c.month < 10 then "0" else "") ++ Int.repr c.month ++ "-" ++
  (if c.day < 10 then "0" else "") ++ Int.repr c.day

/-! ## inferYearAndTime — year inference for dates lacking a year

Source lines 611–687. The run-scoped clock is a single parameter
`today : Civil`, the London calendar date of the run: the code reads both
`CUTOFF` (start of today, computed at module load) and
`dayjs.tz(TZ)` (now), which fall on the same London day, so
`CUTOFF`'s date and year coincide with `today`'s. Comparing the candidate
London midnight with `CUTOFF` via `isBefore` is comparing two London
midnights, i.e. the civil dates. -/

/-- Replacement pass of `stripOrdinals`:
`/\b(\d{1,2})(st|nd|rd|th)\b/gi` → `"$1"`. -/
def matchOrdinal (prev : Option Char) (s : Chars) :
    Option (Chars × Chars) :=
  if !noWordBefore prev then none
  else
    let (ds, r) := takeDigits 2 s
    if ds.isEmpty then none
    else
      let suffix :=
        match matchLitCI ("st").data r with
        | some r2 => some r2
        | none =>
          match matchLitCI ("nd").data r with
          | some r2 => some r2
          | none =>
            match matchLitCI ("rd").data r with
            | some r2 => some r2
            | none => matchLitCI ("th").data r
      match suffix with
      | some r2 => if noWordAfter r2 then some (ds, r2) else none
      | none => none

/-- Source `stripOrdinals`: normalise whitespace, drop ordinal suffixes
(`"2nd Nov"` → `"2 Nov"`). -/
def stripOrdinals (s : String) : String :=
  String.mk (runRepl matchOrdinal (normalizeWhitespace s).data)

/-- Test `/\b\d{4}\b/`: the cleaned date text already has a 4-digit year. -/
def matchYear4 (prev : Option Char) (s : Chars) : Option Unit :=
  if !noWordBefore prev then none
  else
    let (ds, r) := takeDigits 4 s
    if ds.length == 4 && noWordAfter r then some () else none

/-- Presence of a 4-digit year. -/
def hasYear4 (cs : Chars) : Bool := (runFind matchYear4 cs).isSome

/-- Numeric day/month matcher `\b(\d{1,2})[\/\-.](\d{1,2})\b`: payload is
the parsed (day, month) pair. -/
def matchDM (prev : Option Char) (s : Chars) : Option (Nat × Nat) :=
  if !noWordBefore prev then none
  else
    let (ds, r) := takeDigits 2 s
    if ds.isEmpty then none
    else
      match r with
      | sep :: rest =>
        if sep == '/' || sep == '-' || sep == '.' then
          let (ms, r2) := takeDigits 2 rest
          if !ms.isEmpty && noWordAfter r2 then
            some (digitsVal ds, digitsVal ms)
          else none
        else none
      | [] => none

/-- Month-name prefixes tried in order by the source's `findIndex`. -/
def monthAbbrevs : List String :=
  [("jan"), ("feb"), ("mar"), ("apr"), ("may"), ("jun"),
   ("jul"), ("aug"), ("sep"), ("oct"), ("nov"), ("dec")]

/-- Index (1-based month) of the first abbreviation the lower-cased word
starts with, as `findIndex`+`startsWith` in the source; 0 when none. -/
def monthIndexOf (w : Chars) : Nat :=
  let lw := lowerChars w
  let rec go : List String → Nat → Nat
    | [], _ => 0
    | a :: rest, i =>
      if a.data.isPrefixOf lw then i else go rest (i + 1)
  go monthAbbrevs 1

/-- Weekday abbreviations of the optional prefix of the month-name
matcher. -/
def weekdayAbbrevs : List String :=
  [("mon"), ("tue"), ("wed"), ("thu"), ("fri"), ("sat"), ("sun")]

/-- Month-name date matcher
`\b(?:(?:Mon|Tue|Wed|Thu|Fri|Sat|Sun)\w*\s+)?(\d{1,2})\s+([A-Za-z]+)\b/i`:
payload is (day, month word). The optional weekday prefix consumes a
maximal run of word characters and requires following whitespace; when it
fails the bare-digits alternative is tried at the same position. -/
def matchDMon (prev : Option Char) (s : Chars) :
    Option (Nat × Chars) :=
  let wb := noWordBefore prev
  if !wb then none
  else
    let core := fun (t : Chars) =>
      let (ds, r) := takeDigits 2 t
      if ds.isEmpty then none
      else
        let (ws, r2) := takeWs r
        if ws.isEmpty then none
        else
          let letters := r2.takeWhile (fun c => c.isAlpha)
          let rest := r2.dropWhile (fun c => c.isAlpha)
          if letters.isEmpty || !noWordAfter rest then none
          else some (digitsVal ds, letters)
    let wkd := weekdayAbbrevs.any
      (fun w => (matchLitCI w.data s).isSome)
    let viaPrefix :=
      if wkd then
        let afterWord := s.dropWhile isWordChar
        let (ws, r) := takeWs afterWord
        if ws.isEmpty then none else core r
      else none
    match viaPrefix with
    | some p => some p
    | none => core s

/-- Candidate construction shared by both branches of the source: build
`today.year‑mo‑d` (non-strict parse, so an overlong day rolls over), roll
one year forward when strictly before the cutoff date, format, and apply
the evening default to a missing time. -/
def mkCand (today : Civil) (d mo : Nat) (timeText : String) :
    String × String :=
  let cand := rollCivil today.year (Int.ofNat mo) (Int.ofNat d)
  let cand2 := if civilLt cand today then addOneYear cand else cand
  let t := jsTrim timeText.data
  (formatDMY cand2, if t.isEmpty then "20:00" else String.mk t)

/-- Month-name branch (B) of `inferYearAndTime`, also reached when the
numeric branch matched an out-of-range pair; falls back to returning the
cleaned text with the time untouched. -/
def monthRoute (today : Civil) (clean : Chars) (timeText : String) :
    String × String :=
  match runFind matchDMon clean with
  | some (d, monWord) =>
    let mi := monthIndexOf monWord
    if 1 ≤ d && d ≤ 31 && mi != 0 then mkCand today d mi timeText
    else (String.mk clean, timeText)
  | none => (String.mk clean, timeText)

/-- Cleaning prefix of `inferYearAndTime`: strip ordinals, turn commas
into spaces, trim. -/
def cleanDateChars (s : String) : Chars :=
  jsTrim ((stripOrdinals s).data.map (fun c => if c == ',' then ' ' else c))

/-- Source `inferYearAndTime` (lines 611–687): strip ordinals and commas;
pass through text that already carries a 4-digit year; otherwise infer the
year for a numeric day/month pair or a month-name date, assuming the
current year and rolling forward one year when the candidate date lies
strictly before the cutoff; a missing time defaults to `"20:00"` only on
successful inference. -/
def inferYearAndTime (today : Civil) (dateText timeText : String) :
    String × String :=
  let clean := cleanDateChars dateText
  if clean.isEmpty then (dateText, timeText)
  else if hasYear4 clean then (String.mk clean, timeText)
  else
    match runFind matchDM clean with
    | some (d, mo) =>
      if 1 ≤ d && d ≤ 31 && 1 ≤ mo && mo ≤ 12 then mkCand today d mo timeText
      else monthRoute today clean timeText
    | none => monthRoute today clean timeText

/-! ## Canonical events, deduplication, reconciliation, ordering, cutoff

Events as they reach the pipeline tail of `main` (lines 4186–4268).
`start` is the ISO start: `none` models a null or unparseable value
(`Date.parse` gives `NaN`), `some t` a valid instant at epoch
millisecond `t`. `url` is the record URL, `""` modelling a missing one
(falsy, excluded from URL sets by `.filter(Boolean)`). `distance` is the
precomputed distance rank, `none` modelling a missing value
(`?? Infinity` in the sort). -/

structure Event where
  title : String
  venue : String
  url : String
  start : Option Int
  distance : Option Int
deriving DecidableEq, Repr

/-- Dedup key of `deduplicateEvents`:
`lower(trim(title)) + "|" + (start ? localDate(start) : "undated") + "|" +
lower(trim(venue))`, the local date being the London calendar date of the
start instant (`dayjs(ev.start).format("YYYY-MM-DD")` with the process in
the reference zone `Europe/London`). -/
def dedupKey (ev : Event) : String :=
  String.mk (jsTrim (lowerChars ev.title.data)) ++ "|" ++
  (match ev.start with
   | some t => formatYMD (msToLondonCivil t)
   | none => "undated") ++ "|" ++
  String.mk (jsTrim (lowerChars ev.venue.data))

/-- Loop of `deduplicateEvents`: keep an event when its key is not in the
seen set, recording the key. -/
def dedupGo (seen : List String) : List Event → List Event
  | [] => []
  | ev :: rest =>
    if seen.contains (dedupKey ev) then dedupGo seen rest
    else ev :: dedupGo (dedupKey ev :: seen) rest

/-- Source `deduplicateEvents` (lines 175–194): keep the first record per
dedup key, in input order. -/
def deduplicateEvents (events : List Event) : List Event :=
  dedupGo [] events

/-- Specification-side first-occurrence function: keep the head and
recursively the later records whose key differs; manifestly "the
subsequence of the input consisting of the first occurrence of each
key". -/
def firstPerKey (key : Event → String) : List Event → List Event
  | [] => []
  | x :: xs =>
    x :: firstPerKey key (xs.filter (fun y => key y != key x))
termination_by l => l.length
decreasing_by
  exact Nat.lt_succ_of_le (List.length_filter_le _ _)

/-- Key exactly as claim C5 words it, without the trim the source applies:
`lower(title) + "|" + localDate + "|" + lower(venue)`. -/
def specKeyC5 (ev : Event) : String :=
  String.mk (lowerChars ev.title.data) ++ "|" ++
  (match ev.start with
   | some t => formatYMD (msToLondonCivil t)
   | none => "undated") ++ "|" ++
  String.mk (lowerChars ev.venue.data)

/-- Cache reconciliation step of `main` (lines 4201–4222): the URL set of
the freshly scraped events (truthy URLs only), the snapshot records whose
URL is not in that set, concatenation new ++ retained, and a second
deduplication. -/
def reconcile (newEvents existing : List Event) : List Event :=
  let newEventUrls := (newEvents.map (fun e => e.url)).filter
    (fun u => u != "")
  let maintained := existing.filter
    (fun ev => !(newEventUrls.contains ev.url))
  deduplicateEvents (newEvents ++ maintained)

/-- Distance sort key: `a.distance ?? Infinity`, `none` standing for
Infinity. -/
def distLt (a b : Option Int) : Bool :=
  match a, b with
  | some x, some y => x < y
  | some _, none => true
  | none, _ => false

/-- Secondary sort key of the comparator: `Date.parse(start)` ascending,
invalid/missing (`NaN`) last — two invalid starts compare equal. -/
def startLE : Option Int → Option Int → Bool
  | none, b => b == none
  | some _, none => true
  | some ta, some tb => ta ≤ tb

/-- Comparator of the final sort (lines 4229–4244) as a Boolean "a does
not come after b": primary distance ascending (missing distance last),
secondary start instant ascending (invalid/missing start last). -/
def sortLE (a b : Event) : Bool :=
  if a.distance == b.distance then startLE a.start b.start
  else distLt a.distance b.distance

/-- Final sort of `main`: a stable sort by the comparator (JS
`Array.prototype.sort` is stable and the comparator is consistent, which
determines the result uniquely; `mergeSort` is that stable sort). -/
def sortEvents (events : List Event) : List Event :=
  events.mergeSort sortLE

/-- Cutoff filter predicate of `main` (lines 4247–4251): keep a record
whose start is missing/unparseable (`Date.parse` `NaN`), otherwise keep
exactly when `start ≥ nowMs`, `nowMs = Date.now()` at filter time. -/
def keepFuture (nowMs : Int) (ev : Event) : Bool :=
  match ev.start with
  | none => true
  | some t => nowMs ≤ t

/-- Emitted output of the pipeline tail: sort, then cutoff filter
(`futureEvents`), which is what `main` serialises. -/
def emittedEvents (nowMs : Int) (events : List Event) : List Event :=
  (sortEvents events).filter (keepFuture nowMs)

/-- Order claim C7 states for adjacent records: both undated, or both
dated with the earlier first — with dated records before undated ones. -/
def dateOrderLE (a b : Event) : Bool :=
  match a.start, b.start with
  | none, none => true
  | none, some _ => false
  | some _, none => true
  | some ta, some tb => ta ≤ tb

/-! ## Fetch orchestration (fetchWithTimeout, lines 217–250, and the
Promise.allSettled collection loop, lines 4151–4157)

Network nondeterminism is an oracle `env : Nat → FetchOutcome` giving the
outcome of each attempt: an HTTP response with a status code, or a
transport failure (connection error, or the per-attempt timeout firing
and aborting the request). `fetchWithTimeout` returns the final result
together with the list of backoff delays it slept, in order. -/

inductive FetchOutcome where
  | success (status : Nat)
  | failure
deriving DecidableEq, Repr

/-- HTTP success range of `res.ok`. -/
def httpOk (status : Nat) : Bool := 200 ≤ status && status < 300

/-- Retry loop of `fetchWithTimeout`: attempt `attempt`, retry while
`attempt < retries` with backoff `retryDelayMs * (attempt + 1)`; a
response that is `ok` or 404 is returned to the caller, any other status
is thrown and hence retryable. -/
def fetchFrom (env : Nat → FetchOutcome) (retryDelayMs : Nat)
    (retries : Nat) (attempt : Nat) : Except Unit Nat × List Nat :=
  let retryOr : Except Unit Nat × List Nat :=
    if h : attempt < retries then
      let next := fetchFrom env retryDelayMs retries (attempt + 1)
      (next.1, retryDelayMs * (attempt + 1) :: next.2)
    else (Except.error (), [])
  match env attempt with
  | FetchOutcome.success st =>
    if !httpOk st && st != 404 then retryOr else (Except.ok st, [])
  | FetchOutcome.failure => retryOr
termination_by retries - attempt
decreasing_by omega

/-- Source `fetchWithTimeout` under the attempt oracle. -/
def fetchWithTimeout (env : Nat → FetchOutcome) (retryDelayMs retries : Nat) :
    Except Unit Nat × List Nat :=
  fetchFrom env retryDelayMs retries 0

/-- Collection loop over `Promise.allSettled` results (lines 4151–4157):
fulfilled task results are concatenated in task order, rejected tasks are
logged and contribute nothing. -/
def collectSettled (results : List (Except String (List Event))) :
    List Event :=
  results.flatMap (fun r =>
    match r with
    | Except.ok evs => evs
    | Except.error _ => [])

/-! ## resolveAddress (lines 720–741) and the venue address table -/

/-- Source `VENUE_ADDR`: canonical names then aliases, in object key
(insertion) order. The JS object is modelled as a plain key/value map —
own properties only, ignoring prototype-chain lookups for exotic key
names such as "constructor". -/
def VENUE_ADDR : List (String × String) :=
  [("polar bear music club", "229 Spring Bank, Hull, HU3 1LR"),
   ("the welly club", "105-107 Beverley Rd, Hull, HU3 1TS"),
   ("the new adelphi club", "89 De Grey Street, Hull, HU5 2RU"),
   ("vox box", "64-70 Newland Ave, Hull, HU5 3AB"),
   ("union mash up", "22-24 Princes Ave, Hull, HU5 3QA"),
   ("dive hu5", "Unit 1, 78 Princes Ave, Hull HU5 3QJ"),
   ("the people\x27s republic", "112 Newland Avenue, Hull, HU5 3AA"),
   ("mr moodys tavern", "6 Newland Ave, Hull HU5 3AF"),
   ("commun\x27ull", "178 Chanterlands Avenue, Hull HU5 3TR"),
   ("commun’ull", "178 Chanterlands Avenue, Hull HU5 3TR"),
   ("underdog", "12a Princes Ave, Hull HU5 3QA"),
   ("pave bar", "16-20 Princes Ave, Hull HU5 3QA"),
   ("polar bear", "229 Spring Bank, Hull, HU3 1LR"),
   ("adelphi", "89 De Grey Street, Hull, HU5 2RU"),
   ("vox box bar", "64-70 Newland Ave, Hull, HU5 3AB"),
   ("umu", "22-24 Princes Ave, Hull, HU5 3QA"),
   ("union mashup", "22-24 Princes Ave, Hull, HU5 3QA"),
   ("dive bar", "Unit 1, 78 Princes Ave, Hull HU5 3QJ"),
   ("mr moody\x27s tavern", "6 Newland Ave, Hull HU5 3AF")]

/-- Exact lookup `VENUE_ADDR[k]`. -/
def venueAddrGet (k : String) : Option String :=
  (VENUE_ADDR.find? (fun p => p.1 == k)).map (fun p => p.2)

/-- Substring test (JS `String.prototype.includes`). -/
def strIncludes (hay needle : Chars) : Bool :=
  (List.range (hay.length + 1)).any
    (fun i => needle.isPrefixOf (hay.drop i))

/-- Postcode test `/\bHU\d+\s*\d?[A-Z]{2}\b/i`: a Hull postcode pattern. -/
def matchPostcode (prev : Option Char) (s : Chars) : Option Unit :=
  if !noWordBefore prev then none
  else
    match matchLitCI ("hu").data s with
    | none => none
    | some r =>
      let digits := r.takeWhile (fun c => c.isDigit)
      let r2 := r.dropWhile (fun c => c.isDigit)
      if digits.isEmpty then none
      else
        let r3 := dropWs r2
        let r4 := match r3 with
                  | c :: t => if c.isDigit then t else r3
                  | [] => r3
        match r4 with
        | a :: b :: r5 =>
          if a.isAlpha && b.isAlpha && noWordAfter r5 then some ()
          else none
        | _ => none

/-- Completeness test of `resolveAddress`: the cleaned string contains a
Hull postcode or the substring "Hull" (case-insensitive). -/
def looksComplete (cs : Chars) : Bool :=
  (runFind matchPostcode cs).isSome ||
  strIncludes (lowerChars cs) ("hull").data

/-- Source `resolveAddress` (lines 720–741): return the normalised raw
address when it already looks complete; otherwise an exact venue-name
lookup, an exact source-name lookup, the first alias key contained in the
venue name, the first alias key contained in the source name; otherwise
the normalised raw string (possibly empty) — never a fabricated
address. -/
def resolveAddress (rawAddress venue source : String) : String :=
  let clean := normalizeWhitespace rawAddress
  if looksComplete clean.data then clean
  else
    let v := String.mk (lowerChars (normalizeWhitespace venue).data)
    let s := String.mk (lowerChars (normalizeWhitespace source).data)
    match venueAddrGet v with
    | some a => a
    | none =>
      match venueAddrGet s with
      | some a => a
      | none =>
        let hit :=
          match VENUE_ADDR.find? (fun p => strIncludes v.data p.1.data) with
          | some p => some p
          | none => VENUE_ADDR.find? (fun p => strIncludes s.data p.1.data)
        match hit with
        | some p => p.2
        | none => clean

/-! ## Lemmas: deduplication keeps the first record per key -/

/-- Loop characterisation: `dedupGo seen` computes the first-occurrence
subsequence of the input with the already-seen keys removed. -/
theorem dedupGo_eq_firstPerKey (l : List Event) : ∀ seen : List String,
    dedupGo seen l =
      firstPerKey dedupKey
        (l.filter (fun y => !(seen.contains (dedupKey y)))) := by
  induction l with
  | nil => intro seen; simp [dedupGo, firstPerKey]
  | cons ev rest ih =>
    intro seen
    cases hseen : seen.contains (dedupKey ev) with
    | true =>
      simp only [dedupGo, hseen, if_true, List.filter_cons, Bool.not_true,
        Bool.false_eq_true, if_false]
      exact ih seen
    | false =>
      simp only [dedupGo, hseen, Bool.false_eq_true, if_false,
        List.filter_cons, Bool.not_false, if_true]
      rw [firstPerKey, ih (dedupKey ev :: seen), List.filter_filter]
      have hfe : (rest.filter fun a =>
          ((dedupKey a != dedupKey ev) &&
            !(seen.contains (dedupKey a)))) =
          rest.filter
            (fun y => !((dedupKey ev :: seen).contains (dedupKey y))) := by
        apply List.filter_congr
        intro y _
        cases h1 : dedupKey y == dedupKey ev <;>
          cases h2 : seen.contains (dedupKey y) <;>
            simp only [List.contains_cons, bne, h1, h2, Bool.not_true,
              Bool.not_false, Bool.or_false, Bool.or_true, Bool.false_or,
              Bool.true_or, Bool.and_true, Bool.and_false, Bool.true_and,
              Bool.false_and, Bool.not_or]
      rw [hfe]

/-- Source deduplication equals the first-occurrence subsequence. -/
theorem deduplicateEvents_eq_firstPerKey (l : List Event) :
    deduplicateEvents l = firstPerKey dedupKey l := by
  rw [deduplicateEvents, dedupGo_eq_firstPerKey]
  congr 1
  simp

/-- Filtering by a key-invariant predicate commutes with taking first
occurrences per key. -/
theorem filter_firstPerKey (key : Event → String) (p : Event → Bool)
    (hp : ∀ a b, key a = key b → p a = p b) :
    ∀ (n : Nat) (l : List Event), l.length ≤ n →
      (firstPerKey key l).filter p = firstPerKey key (l.filter p) := by
  intro n
  induction n with
  | zero =>
    intro l hl
    have : l = [] := List.eq_nil_of_length_eq_zero (Nat.le_zero.mp hl)
    subst this
    simp [firstPerKey]
  | succ n ih =>
    intro l hl
    match l with
    | [] => simp [firstPerKey]
    | x :: xs =>
      have hlen : (xs.filter (fun y => key y != key x)).length ≤ n := by
        have := List.length_filter_le (fun y => key y != key x) xs
        simp only [List.length_cons, Nat.succ_le_succ_iff] at hl
        omega
      rw [firstPerKey, List.filter_cons, List.filter_cons]
      cases hx : p x with
      | true =>
        simp only [if_true]
        rw [firstPerKey, ih _ hlen, List.filter_filter, List.filter_filter]
        have hfe : (xs.filter fun a => (p a && (key a != key x))) =
            xs.filter (fun a => ((key a != key x) && p a)) := by
          apply List.filter_congr
          intro y _
          exact Bool.and_comm _ _
        rw [hfe]
      | false =>
        simp only [Bool.false_eq_true, if_false]
        rw [ih _ hlen, List.filter_filter]
        have hfe : (xs.filter fun a => (p a && (key a != key x))) =
            xs.filter p := by
          apply List.filter_congr
          intro y _
          cases hk : key y == key x with
          | true =>
            have hpy : p y = p x := hp y x (by simpa using hk)
            simp [hpy, hx, bne, hk]
          | false => simp [bne, hk]
        rw [hfe]

/-- First-occurrence extraction is idempotent. -/
theorem firstPerKey_idem (key : Event → String) :
    ∀ (n : Nat) (l : List Event), l.length ≤ n →
      firstPerKey key (firstPerKey key l) = firstPerKey key l := by
  intro n
  induction n with
  | zero =>
    intro l hl
    have : l = [] := List.eq_nil_of_length_eq_zero (Nat.le_zero.mp hl)
    subst this
    simp [firstPerKey]
  | succ n ih =>
    intro l hl
    match l with
    | [] => simp [firstPerKey]
    | x :: xs =>
      have hlen : (xs.filter (fun y => key y != key x)).length ≤ n := by
        have := List.length_filter_le (fun y => key y != key x) xs
        simp only [List.length_cons, Nat.succ_le_succ_iff] at hl
        omega
      have hp : ∀ a b, key a = key b →
          (fun y => key y != key x) a = (fun y => key y != key x) b := by
        intro a b h
        simp only [h]
      have e1 : firstPerKey key (x :: xs) =
          x :: firstPerKey key (xs.filter (fun y => key y != key x)) := by
        rw [firstPerKey]
      rw [e1, firstPerKey]
      congr 1
      rw [filter_firstPerKey key _ hp n _ hlen]
      have hff : ((xs.filter (fun y => key y != key x)).filter
          (fun y => key y != key x)) =
          xs.filter (fun y => key y != key x) := by
        rw [List.filter_filter]
        apply List.filter_congr
        intro y _
        exact Bool.and_self _
      rw [hff]
      exact ih _ hlen

/-- A list whose dedup keys are pairwise distinct is its own
first-occurrence subsequence. -/
theorem firstPerKey_of_nodup (key : Event → String) :
    ∀ l : List Event, (l.map key).Nodup → firstPerKey key l = l := by
  intro l
  induction l with
  | nil => intro _; simp [firstPerKey]
  | cons x xs ih =>
    intro h
    rw [List.map_cons, List.nodup_cons] at h
    rw [firstPerKey]
    have hf : xs.filter (fun y => key y != key x) = xs := by
      rw [List.filter_eq_self]
      intro a ha
      have hne : key a ≠ key x := by
        intro hc
        exact h.1 (hc ▸ List.mem_map_of_mem key ha)
      simpa [bne] using hne
    rw [hf, ih h.2]

/-! ## Claim C4 — deduplication is idempotent -/

/-- C4: the Deduplication Engine is a stable fixed point — for every list
of events, applying `deduplicateEvents` to its own output returns that
output unchanged. -/
theorem C4_dedup_idempotent (l : List Event) :
    deduplicateEvents (deduplicateEvents l) = deduplicateEvents l := by
  rw [deduplicateEvents_eq_firstPerKey, deduplicateEvents_eq_firstPerKey]
  exact firstPerKey_idem dedupKey l.length l (Nat.le_refl _)

/-! ## Claim C5 — first record per key, in source order -/

/-- C5 (amended): the output of `deduplicateEvents` is the subsequence of
the input consisting of the first occurrence of each key, the key being
`lower(trim(title)) + "|" + (localDate(start) | "undated") + "|" +
lower(trim(venue))` — the source trims the lower-cased title and venue,
which the claim's key formula omits. -/
theorem C5_dedup_first_per_key (l : List Event) :
    deduplicateEvents l = firstPerKey dedupKey l :=
  deduplicateEvents_eq_firstPerKey l

/-- C5 counterexample: with the claim's exact key
(`lower(title) + "|" + …`, no trim), two events whose titles differ only
by trailing whitespace have distinct claim keys, so the claimed
first-occurrence subsequence keeps both — but the source key trims, so
`deduplicateEvents` drops the second. -/
theorem C5_counterexample :
    deduplicateEvents
        [⟨"Gig ", "V", "", none, none⟩, ⟨"Gig", "V", "", none, none⟩] ≠
      firstPerKey specKeyC5
        [⟨"Gig ", "V", "", none, none⟩, ⟨"Gig", "V", "", none, none⟩] := by
  have h1 : deduplicateEvents
      [⟨"Gig ", "V", "", none, none⟩, ⟨"Gig", "V", "", none, none⟩] =
      [⟨"Gig ", "V", "", none, none⟩] := by decide
  have h2 : firstPerKey specKeyC5
      [⟨"Gig ", "V", "", none, none⟩, ⟨"Gig", "V", "", none, none⟩] =
      [⟨"Gig ", "V", "", none, none⟩, ⟨"Gig", "V", "", none, none⟩] := by
    rw [firstPerKey]
    have hfl : ([⟨"Gig", "V", "", none, none⟩] : List Event).filter
        (fun y => specKeyC5 y != specKeyC5 ⟨"Gig ", "V", "", none, none⟩) =
        [⟨"Gig", "V", "", none, none⟩] := by decide
    rw [hfl, firstPerKey]
    have hfl2 : ([] : List Event).filter
        (fun y => specKeyC5 y != specKeyC5 ⟨"Gig", "V", "", none, none⟩) =
        [] := by decide
    rw [hfl2, firstPerKey]
  rw [h1, h2]
  decide

/-! ## Claim C3 — cache reconciliation round-trip -/

/-- C3: when the fresh set re-fetches exactly one record `n` with truthy
URL `u1`, reconciliation retains every snapshot record whose URL is not
`u1`, puts the fresh record first, and (the keys being distinct, as for
records describing distinct events) the second deduplication keeps all of
them: the reconciled output is the fresh record followed by all other
snapshot records unchanged. -/
theorem C3_reconcile_roundtrip (n : Event) (S : List Event)
    (hurl : n.url ≠ "")
    (hkeys : ((n :: S.filter (fun s => s.url != n.url)).map dedupKey).Nodup) :
    reconcile [n] S = n :: S.filter (fun s => s.url != n.url) := by
  rw [reconcile]
  have hu : (([n].map (fun e => e.url)).filter (fun u => u != "")) =
      [n.url] := by
    simp only [List.map_cons, List.map_nil, List.filter_cons,
      List.filter_nil]
    have : (n.url != "") = true := by simpa [bne] using hurl
    rw [this]
    simp
  rw [hu]
  have hm : (S.filter (fun ev => !([n.url].contains ev.url))) =
      S.filter (fun s => s.url != n.url) := by
    apply List.filter_congr
    intro y _
    cases h1 : y.url == n.url <;>
      simp only [List.contains_cons, List.contains_nil, bne, h1,
        Bool.or_false, Bool.not_true, Bool.not_false]
  rw [hm]
  have : ([n] ++ S.filter (fun s => s.url != n.url)) =
      n :: S.filter (fun s => s.url != n.url) := by simp
  rw [this, deduplicateEvents_eq_firstPerKey]
  exact firstPerKey_of_nodup dedupKey _ hkeys

/-- C3 witness: a fresh record for `u1` plus a snapshot holding a stale
`u1` record and one other record; the reconciled output is the fresh
record followed by the other snapshot record unchanged. -/
theorem C3_reconcile_roundtrip_witness :
    reconcile [⟨"A", "V", "u1", some 1000, none⟩]
        [⟨"A old", "V", "u1", none, none⟩, ⟨"B", "W", "u2", none, none⟩] =
      [⟨"A", "V", "u1", some 1000, none⟩, ⟨"B", "W", "u2", none, none⟩] := by
  have h := C3_reconcile_roundtrip ⟨"A", "V", "u1", some 1000, none⟩
    [⟨"A old", "V", "u1", none, none⟩, ⟨"B", "W", "u2", none, none⟩]
    (by decide) (by decide)
  rw [h]
  decide

/-! ## Lemmas: the sort comparator is a total preorder -/

theorem distLt_trans {x y z : Option Int} (h1 : distLt x y = true)
    (h2 : distLt y z = true) : distLt x z = true := by
  rcases x with _ | x <;> rcases y with _ | y <;> rcases z with _ | z <;>
    simp_all [distLt] <;> omega

theorem distLt_asymm {x y : Option Int} (h1 : distLt x y = true)
    (h2 : distLt y x = true) : False := by
  rcases x with _ | x <;> rcases y with _ | y <;>
    simp_all [distLt] <;> omega

theorem startLE_total (x y : Option Int) :
    startLE x y = true ∨ startLE y x = true := by
  rcases x with _ | x <;> rcases y with _ | y <;>
    simp_all [startLE] <;> omega

theorem startLE_trans {x y z : Option Int} (h1 : startLE x y = true)
    (h2 : startLE y z = true) : startLE x z = true := by
  rcases x with _ | x <;> rcases y with _ | y <;> rcases z with _ | z <;>
    simp_all [startLE] <;> omega

theorem sortLE_total (a b : Event) : (sortLE a b || sortLE b a) = true := by
  unfold sortLE
  by_cases h : a.distance = b.distance
  · have h1 : (a.distance == b.distance) = true := beq_iff_eq.mpr h
    have h2 : (b.distance == a.distance) = true := beq_iff_eq.mpr h.symm
    simp only [h1, h2, if_true]
    rcases startLE_total a.start b.start with hs | hs <;> simp [hs]
  · have h1 : (a.distance == b.distance) = false := by
      simpa using h
    have h2 : (b.distance == a.distance) = false := by
      simpa using fun hc => h hc.symm
    simp only [h1, h2, Bool.false_eq_true, if_false]
    rcases ha : a.distance with _ | x <;> rcases hb : b.distance with _ | y <;>
      simp_all [distLt]

theorem sortLE_trans (a b c : Event) (hab : sortLE a b = true)
    (hbc : sortLE b c = true) : sortLE a c = true := by
  unfold sortLE at *
  by_cases h1 : a.distance = b.distance <;>
    by_cases h2 : b.distance = c.distance
  · have e1 : (a.distance == b.distance) = true := beq_iff_eq.mpr h1
    have e2 : (b.distance == c.distance) = true := beq_iff_eq.mpr h2
    have e3 : (a.distance == c.distance) = true :=
      beq_iff_eq.mpr (h1.trans h2)
    simp only [e1, e2, e3, if_true] at *
    exact startLE_trans hab hbc
  · have e1 : (a.distance == b.distance) = true := beq_iff_eq.mpr h1
    have e2 : (b.distance == c.distance) = false := by simpa using h2
    have e3 : (a.distance == c.distance) = false := by
      simpa using fun hc => h2 (h1.symm.trans hc)
    simp only [e1, e2, e3, Bool.false_eq_true, if_false, if_true] at *
    rw [h1]
    exact hbc
  · have e1 : (a.distance == b.distance) = false := by simpa using h1
    have e2 : (b.distance == c.distance) = true := beq_iff_eq.mpr h2
    have e3 : (a.distance == c.distance) = false := by
      simpa using fun hc => h1 (hc.trans h2.symm)
    simp only [e1, e2, e3, Bool.false_eq_true, if_false, if_true] at *
    rw [← h2]
    exact hab
  · have e1 : (a.distance == b.distance) = false := by simpa using h1
    have e2 : (b.distance == c.distance) = false := by simpa using h2
    simp only [e1, e2, Bool.false_eq_true, if_false] at *
    by_cases h3 : a.distance = c.distance
    · exfalso
      rw [h3] at hab
      exact distLt_asymm hbc hab
    · have e3 : (a.distance == c.distance) = false := by simpa using h3
      simp only [e3, Bool.false_eq_true, if_false]
      exact distLt_trans hab hbc

/-! ## Claim C7 — final output ordering -/

/-- C7 counterexample: the emitted array is NOT ordered by resolved
instant with undated last. Two dated future events where the farther
venue's event starts earlier: the sort puts the closer venue's later
event first, so an adjacent pair has the later instant before the
earlier one. -/
theorem C7_counterexample :
    ¬ List.Pairwise (fun a b => dateOrderLE a b = true)
      (emittedEvents 0
        [⟨"A", "V", "", some 50, some 2⟩,
         ⟨"B", "W", "", some 100, some 1⟩]) := by
  have h : emittedEvents 0
      [⟨"A", "V", "", some 50, some 2⟩,
       ⟨"B", "W", "", some 100, some 1⟩] =
      [⟨"B", "W", "", some 100, some 1⟩,
       ⟨"A", "V", "", some 50, some 2⟩] := by
    simp [emittedEvents, sortEvents, List.mergeSort, List.merge, sortLE,
      distLt, startLE, keepFuture]
  rw [h]
  intro hp
  have := List.rel_of_pairwise_cons hp (List.mem_singleton.mpr rfl)
  simp [dateOrderLE] at this

/-- C7 (amended): every pair of adjacent records of the emitted JSON
array is ordered by the actual sort key — distance ascending with missing
distance last, and only within equal distance by resolved instant
ascending with undated/invalid starts last. -/
theorem C7_output_order (nowMs : Int) (events : List Event) :
    List.Pairwise (fun a b => sortLE a b = true)
      (emittedEvents nowMs events) := by
  have hs : List.Pairwise (fun a b => sortLE a b = true)
      (sortEvents events) :=
    @List.sorted_mergeSort Event sortLE sortLE_trans sortLE_total events
  exact List.Pairwise.sublist (List.filter_sublist _) hs

/-! ## Claim C1 — cutoff filter -/

/-- C1 counterexample: the filter threshold is `Date.now()` at filter
time, not the start-of-day cutoff. At `now` = 2025-01-15T10:00:00Z the
start of the current London day is 2025-01-15T00:00:00Z, and a dated
record whose start equals that cutoff is dropped from the emitted
output, where the claim says it is retained. -/
theorem C1_counterexample :
    londonStartOfDay 1736935200000 = 1736899200000 ∧
    keepFuture 1736935200000 ⟨"A", "V", "u", some 1736899200000, none⟩ =
      false ∧
    emittedEvents 1736935200000
        [⟨"A", "V", "u", some 1736899200000, none⟩] = [] := by
  refine ⟨by decide, by decide, ?_⟩
  simp [emittedEvents, sortEvents, List.mergeSort, keepFuture]

/-- Strictly-past test the claim describes: the record's resolved instant
lies strictly before the threshold (undated records are never past). -/
def isStrictlyPast (nowMs : Int) (ev : Event) : Bool :=
  match ev.start with
  | some t => t < nowMs
  | none => false

/-- C1 (amended): the cutoff filter's threshold is the current instant
`Date.now()` at filter time (not start-of-day): a dated record with
`start == now` is retained (inclusive), one with `start == now − 1ms` is
dropped, an undated record is always retained, and the emitted output
drops exactly the records whose resolved instant is strictly before
`now`. -/
theorem C1_cutoff_filter (nowMs : Int) (events : List Event)
    (t v u : String) (dist : Option Int) :
    keepFuture nowMs ⟨t, v, u, some nowMs, dist⟩ = true ∧
    keepFuture nowMs ⟨t, v, u, some (nowMs - 1), dist⟩ = false ∧
    keepFuture nowMs ⟨t, v, u, none, dist⟩ = true ∧
    emittedEvents nowMs events =
      (sortEvents events).filter (fun e => !(isStrictlyPast nowMs e)) := by
  refine ⟨by simp [keepFuture], by simp [keepFuture], by simp [keepFuture], ?_⟩
  rw [emittedEvents]
  apply List.filter_congr
  intro e _
  rcases he : e.start with _ | s
  · simp [keepFuture, isStrictlyPast, he]
  · simp only [keepFuture, isStrictlyPast, he]
    by_cases h : nowMs ≤ s
    · simp [h, show ¬ (s < nowMs) from by omega]
    · simp [h, show s < nowMs from by omega]

/-- C1 witness: the amended filter semantics at a concrete boundary. -/
theorem C1_cutoff_filter_witness :
    keepFuture 1000 ⟨"t", "v", "u", some 1000, none⟩ = true ∧
    keepFuture 1000 ⟨"t", "v", "u", some 999, none⟩ = false ∧
    keepFuture 1000 ⟨"t", "v", "u", none, none⟩ = true := by
  have h := C1_cutoff_filter 1000 [] ("t") ("v") ("u") none
  exact ⟨h.1, by simpa using h.2.1, h.2.2.1⟩

/-! ## Claim C2 — price-adjacent time extraction -/

/-- C2 counterexample: on the spec's own example
`"£10.25 entry, doors 8pm"`, `extractTimeFrom` grabs the bare `10.25`
(the 24-hour-shaped search fires before the meridiem search, and the
price stripping never sees the `£`, which the match left behind), mangles
it to `"1:000:25"`, and `to24h` of that candidate is `none` — not
`"20:00"` as claimed for the extraction pipeline. -/
theorem C2_counterexample :
    extractTimeFrom ("£10.25 entry, doors 8pm") = "1:000:25" ∧
    to24h (extractTimeFrom ("£10.25 entry, doors 8pm")) = none := by
  exact ⟨by decide, by decide⟩

/-- C2 (amended): on a time string with an adjacent currency amount, the
normaliser `to24h` applied to the whole string strips the price and
extracts `"20:00"`; the `extractTimeFrom` candidate route instead yields
a mangled candidate that normalises to no time at all. Neither route ever
produces the price misreadings `"10:25"` or `"02:05"`. -/
theorem C2_price_time (s : String)
    (hs : s = "£10.25 entry, doors 8pm") :
    to24h s = some ("20:00") ∧
    extractTimeFrom s = "1:000:25" ∧
    to24h (extractTimeFrom s) = none ∧
    to24h s ≠ some ("10:25") ∧ to24h s ≠ some ("02:05") ∧
    to24h (extractTimeFrom s) ≠ some ("10:25") ∧
    to24h (extractTimeFrom s) ≠ some ("02:05") := by
  subst hs
  refine ⟨by decide, by decide, by decide, by decide, by decide,
    by decide, by decide⟩

/-- C2 witness: the amended statement at its concrete input. -/
theorem C2_price_time_witness :
    to24h ("£10.25 entry, doors 8pm") = some ("20:00") :=
  (C2_price_time ("£10.25 entry, doors 8pm") rfl).1

/-! ## Claim C10 — totality and output shape of to24h -/

/-- Every result of `to24hAux` is `none` or a string of the shape
`pad2 h ++ ":" ++ pad2 m` produced by one of the four branch
formatters. -/
theorem to24hAux_shape : ∀ (fuel : Nat) (raw : String),
    to24hAux fuel raw = none ∨
      ∃ h m, to24hAux fuel raw = some (mkHHMM h m) := by
  intro fuel
  induction fuel with
  | zero => intro raw; left; rfl
  | succ n ih =>
    intro raw
    cases he : raw.isEmpty with
    | true => left; simp [to24hAux, he]
    | false =>
      simp only [to24hAux, he, Bool.false_eq_true, if_false]
      rcases h1 : runFind matchB1 (cleanTimeCandidate raw).data with
        _ | ⟨hh, mm, pm⟩
      · rcases h2 : runFind matchB2 (cleanTimeCandidate raw).data with
          _ | ⟨hh2, pm2⟩
        · rcases h3 : runFind matchB3 (cleanTimeCandidate raw).data with
            _ | grp
          · rcases h4 : runFind matchB4 (cleanTimeCandidate raw).data with
              _ | ⟨hh4, mm4⟩
            · left; simp [h1, h2, h3, h4]
            · right
              exact ⟨min 23 hh4, min 59 mm4, by simp [h1, h2, h3, h4]⟩
          · rcases ih (String.mk grp) with h | ⟨hh3, mm3, hm⟩
            · left
              simp only [h1, h2, h3]
              exact h
            · right
              refine ⟨hh3, mm3, ?_⟩
              simp only [h1, h2, h3]
              exact hm
        · right
          exact ⟨conv12 hh2 pm2, 0, by simp [h1, h2]⟩
      · right
        exact ⟨conv12 hh pm, mm, by simp [h1]⟩

/-- C10 counterexample: the 12-hour-with-minutes branch performs no range
validation, so `"19:30pm"` is read as 19 pm and becomes `"31:30"` — an
output whose hour component is 31, outside the claimed 00–23 range. -/
theorem C10_counterexample :
    to24h ("19:30pm") = some ("31:30") ∧
    digitsVal (("31:30").data.takeWhile (fun c => c.isDigit)) = 31 := by
  exact ⟨by decide, by decide⟩

/-- C10 (amended): `to24h` is total by construction and always returns
`none` or a string `pad2 h ++ ":" ++ pad2 m`; the 24-hour branch clamps
an out-of-range hour to 23 and out-of-range minutes to 59; a bare hour
without meridiem yields `none`; but the 12-hour branches do not validate,
so a meridiem-carrying input can produce an hour beyond 23 (e.g.
`"19:30pm"` → `"31:30"`), and the claimed `00–23`/`00–59` range guarantee
fails in general. -/
theorem C10_to24h_total_shape :
    (∀ s : String, to24h s = none ∨ ∃ h m, to24h s = some (mkHHMM h m)) ∧
    (∀ h < 100, to24h (Nat.repr h ++ ":30") =
      some (mkHHMM (min 23 h) 30)) ∧
    (∀ m < 100, 10 ≤ m → to24h ("12:" ++ Nat.repr m) =
      some (mkHHMM 12 (min 59 m))) ∧
    (∀ n < 100, to24h (Nat.repr n) = none) ∧
    to24h ("19:30pm") = some (mkHHMM 31 30) := by
  refine ⟨fun s => to24hAux_shape 2 s, by decide, by decide, by decide,
    by decide⟩

/-- C10 witness: the amended statement at concrete inputs — clamping at
`"99:30"` and `"12:99"`, and a bare hour `"8"`. -/
theorem C10_to24h_total_shape_witness :
    to24h ("99:30") = some ("23:30") ∧
    to24h ("12:99") = some ("12:59") ∧
    to24h ("8") = none := by
  have h := C10_to24h_total_shape
  refine ⟨?_, ?_, ?_⟩
  · have := h.2.1 99 (by decide)
    simpa using this
  · have := h.2.2.1 99 (by decide) (by decide)
    simpa using this
  · have := h.2.2.2.1 8 (by decide)
    simpa using this

/-! ## Claim C6 — year inference -/

/-- C6: for a date string without a 4-digit year carrying a numeric
day/month pair (or, the numeric matcher failing, a month-name date), the
resolver assumes the current year (= the cutoff's year, the two being
computed in the same run); when the resulting same-year date is strictly
before the cutoff it rolls forward exactly one year, the inferred year
being `cutoff.year + 1`; the evening default `"20:00"` is applied to a
missing time exactly on successful inference — text that already carries
a year, or in which no pair is found, passes through with the time
untouched. -/
theorem C6_year_inference (today : Civil) (dateText timeText : String)
    (d mo : Nat) (w : Chars) :
    ((hasYear4 (cleanDateChars dateText) = false) →
      (runFind matchDM (cleanDateChars dateText) = some (d, mo)) →
      (1 ≤ d ∧ d ≤ 31 ∧ 1 ≤ mo ∧ mo ≤ 12) →
      ((Int.ofNat d) ≤ daysInMonth today.year (Int.ofNat mo)) →
      (inferYearAndTime today dateText timeText =
        (formatDMY
          (if civilLt ⟨today.year, Int.ofNat mo, Int.ofNat d⟩ today then
            addOneYear ⟨today.year, Int.ofNat mo, Int.ofNat d⟩
          else ⟨today.year, Int.ofNat mo, Int.ofNat d⟩),
         if (jsTrim timeText.data).isEmpty then "20:00"
         else String.mk (jsTrim timeText.data)) ∧
       (addOneYear
          (⟨today.year, Int.ofNat mo, Int.ofNat d⟩ : Civil)).year =
         today.year + 1)) ∧
    ((hasYear4 (cleanDateChars dateText) = false) →
      (runFind matchDM (cleanDateChars dateText) = none) →
      (runFind matchDMon (cleanDateChars dateText) = some (d, w)) →
      (monthIndexOf w = mo) →
      (1 ≤ d ∧ d ≤ 31 ∧ 1 ≤ mo ∧ mo ≤ 12) →
      ((Int.ofNat d) ≤ daysInMonth today.year (Int.ofNat mo)) →
      (inferYearAndTime today dateText timeText =
        (formatDMY
          (if civilLt ⟨today.year, Int.ofNat mo, Int.ofNat d⟩ today then
            addOneYear ⟨today.year, Int.ofNat mo, Int.ofNat d⟩
          else ⟨today.year, Int.ofNat mo, Int.ofNat d⟩),
         if (jsTrim timeText.data).isEmpty then "20:00"
         else String.mk (jsTrim timeText.data)) ∧
       (addOneYear
          (⟨today.year, Int.ofNat mo, Int.ofNat d⟩ : Civil)).year =
         today.year + 1)) ∧
    (((cleanDateChars dateText).isEmpty = false) →
      (hasYear4 (cleanDateChars dateText) = true) →
      inferYearAndTime today dateText timeText =
        (String.mk (cleanDateChars dateText), timeText)) ∧
    (((cleanDateChars dateText).isEmpty = false) →
      (hasYear4 (cleanDateChars dateText) = false) →
      (runFind matchDM (cleanDateChars dateText) = none) →
      (runFind matchDMon (cleanDateChars dateText) = none) →
      inferYearAndTime today dateText timeText =
        (String.mk (cleanDateChars dateText), timeText)) := by
  have hnonempty : ∀ {p : Nat × Nat},
      runFind matchDM (cleanDateChars dateText) = some p →
      (cleanDateChars dateText).isEmpty = false := by
    intro p hp
    cases hne : (cleanDateChars dateText).isEmpty with
    | true =>
      rw [List.isEmpty_iff.mp hne] at hp
      simp [runFind, findFirst] at hp
    | false => rfl
  refine ⟨?_, ?_, ?_, ?_⟩
  · intro hy hm hr hv
    have hne := hnonempty hm
    have hroll : rollCivil today.year (Int.ofNat mo) (Int.ofNat d) =
        ⟨today.year, Int.ofNat mo, Int.ofNat d⟩ := by
      rw [rollCivil, if_pos hv]
    have hcond : (1 ≤ d && d ≤ 31 && (1 ≤ mo) && mo ≤ 12) = true := by
      simp [hr.1, hr.2.1, hr.2.2.1, hr.2.2.2]
    constructor
    · simp only [inferYearAndTime, hne, Bool.false_eq_true, if_false, hy,
        hm, hcond, if_true, mkCand, hroll]
    · rfl
  · intro hy hm0 hw hmi hr hv
    have hne : (cleanDateChars dateText).isEmpty = false := by
      cases hne : (cleanDateChars dateText).isEmpty with
      | true =>
        rw [List.isEmpty_iff.mp hne] at hw
        simp [runFind, findFirst] at hw
      | false => rfl
    have hroll : rollCivil today.year (Int.ofNat mo) (Int.ofNat d) =
        ⟨today.year, Int.ofNat mo, Int.ofNat d⟩ := by
      rw [rollCivil, if_pos hv]
    have hmo0 : (mo != 0) = true := by
      have h1 : 1 ≤ mo := hr.2.2.1
      rw [bne_iff_ne]
      omega
    have hcond : (1 ≤ d && d ≤ 31 && (mo != 0)) = true := by
      simp [hr.1, hr.2.1, hmo0]
    constructor
    · simp only [inferYearAndTime, hne, Bool.false_eq_true, if_false, hy,
        hm0, monthRoute, hw, hmi, hcond, if_true, mkCand, hroll]
    · rfl
  · intro hne hy
    simp only [inferYearAndTime, hne, Bool.false_eq_true, if_false, hy,
      if_true]
  · intro hne hy hm0 hw0
    simp only [inferYearAndTime, hne, Bool.false_eq_true, if_false, hy,
      hm0, monthRoute, hw0]

/-- C6 witness: today 2025-10-11; `"10/10"` (already past this year)
rolls to `"10/10/2026"` with the missing time defaulted, `"25/12"` stays
in 2025, a dated text with a year (`"25/12/2025"`) passes through with
the empty time untouched. -/
theorem C6_year_inference_witness :
    inferYearAndTime ⟨2025, 10, 11⟩ ("10/10") ("") =
      ("10/10/2026", "20:00") ∧
    inferYearAndTime ⟨2025, 10, 11⟩ ("25/12") ("7pm") =
      ("25/12/2025", "7pm") ∧
    inferYearAndTime ⟨2025, 10, 11⟩ ("2 Nov") ("") =
      ("2/11/2025", "20:00") ∧
    inferYearAndTime ⟨2025, 10, 11⟩ ("25/12/2025") ("") =
      ("25/12/2025", "") := by
  refine ⟨?_, ?_, ?_, ?_⟩
  · have h := (C6_year_inference ⟨2025, 10, 11⟩ ("10/10") ("") 10 10
      []).1 (by decide) (by decide) (by decide) (by decide)
    rw [h.1]
    decide
  · have h := (C6_year_inference ⟨2025, 10, 11⟩ ("25/12") ("7pm") 25 12
      []).1 (by decide) (by decide) (by decide) (by decide)
    rw [h.1]
    decide
  · have h := (C6_year_inference ⟨2025, 10, 11⟩ ("2 Nov") ("") 2 11
      ("Nov").data).2.1 (by decide) (by decide) (by decide) (by decide)
      (by decide) (by decide)
    rw [h.1]
    decide
  · have h := (C6_year_inference ⟨2025, 10, 11⟩ ("25/12/2025") ("") 0 0
      []).2.2.1 (by decide) (by decide)
    rw [h]
    decide

/-! ## Claim C9 — address resolution -/

/-- C9 counterexample: a raw address containing the city word is NOT
returned unchanged — the source returns the whitespace-normalised string,
so doubled spaces collapse. -/
theorem C9_counterexample :
    strIncludes (lowerChars ("Hull  x").data) ("hull").data = true ∧
    resolveAddress ("Hull  x") ("") ("") = "Hull x" ∧
    resolveAddress ("Hull  x") ("") ("") ≠ "Hull  x" := by
  exact ⟨by decide, by decide, by decide⟩

/-- C9 (amended): a raw address already containing a recognisable
postcode pattern or the city word is returned whitespace-normalised but
otherwise unchanged; otherwise the venue name, then the source name, is
looked up case-insensitively, falling back to the first alias key that is
a substring of either name; when nothing matches the normalised original
(possibly empty) string is returned — an address is never fabricated for
an unknown venue. -/
theorem C9_resolve_address (rawAddress venue source a : String)
    (p : String × String) :
    ((looksComplete (normalizeWhitespace rawAddress).data = true) →
      resolveAddress rawAddress venue source =
        normalizeWhitespace rawAddress) ∧
    ((looksComplete (normalizeWhitespace rawAddress).data = false) →
      venueAddrGet
          (String.mk (lowerChars (normalizeWhitespace venue).data)) =
        some a →
      resolveAddress rawAddress venue source = a) ∧
    ((looksComplete (normalizeWhitespace rawAddress).data = false) →
      venueAddrGet
          (String.mk (lowerChars (normalizeWhitespace venue).data)) =
        none →
      venueAddrGet
          (String.mk (lowerChars (normalizeWhitespace source).data)) =
        some a →
      resolveAddress rawAddress venue source = a) ∧
    ((looksComplete (normalizeWhitespace rawAddress).data = false) →
      venueAddrGet
          (String.mk (lowerChars (normalizeWhitespace venue).data)) =
        none →
      venueAddrGet
          (String.mk (lowerChars (normalizeWhitespace source).data)) =
        none →
      VENUE_ADDR.find? (fun q => strIncludes
          (lowerChars (normalizeWhitespace venue).data) q.1.data) =
        some p →
      resolveAddress rawAddress venue source = p.2) ∧
    ((looksComplete (normalizeWhitespace rawAddress).data = false) →
      venueAddrGet
          (String.mk (lowerChars (normalizeWhitespace venue).data)) =
        none →
      venueAddrGet
          (String.mk (lowerChars (normalizeWhitespace source).data)) =
        none →
      VENUE_ADDR.find? (fun q => strIncludes
          (lowerChars (normalizeWhitespace venue).data) q.1.data) =
        none →
      VENUE_ADDR.find? (fun q => strIncludes
          (lowerChars (normalizeWhitespace source).data) q.1.data) =
        some p →
      resolveAddress rawAddress venue source = p.2) ∧
    ((looksComplete (normalizeWhitespace rawAddress).data = false) →
      venueAddrGet
          (String.mk (lowerChars (normalizeWhitespace venue).data)) =
        none →
      venueAddrGet
          (String.mk (lowerChars (normalizeWhitespace source).data)) =
        none →
      VENUE_ADDR.find? (fun q => strIncludes
          (lowerChars (normalizeWhitespace venue).data) q.1.data) =
        none →
      VENUE_ADDR.find? (fun q => strIncludes
          (lowerChars (normalizeWhitespace source).data) q.1.data) =
        none →
      resolveAddress rawAddress venue source =
        normalizeWhitespace rawAddress) := by
  refine ⟨?_, ?_, ?_, ?_, ?_, ?_⟩
  · intro hc
    simp only [resolveAddress, hc, if_true]
  · intro hc hv
    simp only [resolveAddress, hc, Bool.false_eq_true, if_false, hv]
  · intro hc hv hs
    simp only [resolveAddress, hc, Bool.false_eq_true, if_false, hv, hs]
  · intro hc hv hs hf
    simp only [resolveAddress, hc, Bool.false_eq_true, if_false, hv, hs, hf]
  · intro hc hv hs hf hg
    simp only [resolveAddress, hc, Bool.false_eq_true, if_false, hv, hs,
      hf, hg]
  · intro hc hv hs hf hg
    simp only [resolveAddress, hc, Bool.false_eq_true, if_false, hv, hs,
      hf, hg]

/-- C9 witness: a complete raw address passes through normalised; a known
venue alias resolves; an unknown venue returns the empty original. -/
theorem C9_resolve_address_witness :
    resolveAddress ("229 Spring Bank, Hull, HU3 1LR") ("") ("") =
      "229 Spring Bank, Hull, HU3 1LR" ∧
    resolveAddress ("") ("Adelphi") ("") =
      "89 De Grey Street, Hull, HU5 2RU" ∧
    resolveAddress ("") ("The Unknown Arms") ("mystery source") = "" := by
  refine ⟨?_, ?_, ?_⟩
  · have h := (C9_resolve_address ("229 Spring Bank, Hull, HU3 1LR")
      ("") ("") ("") (("", ""))).1 (by decide)
    rw [h]
    decide
  · have h := (C9_resolve_address ("") ("Adelphi") ("")
      ("89 De Grey Street, Hull, HU5 2RU") (("", ""))).2.1 (by decide)
      (by decide)
    exact h
  · have h := (C9_resolve_address ("") ("The Unknown Arms")
      ("mystery source") ("") (("", ""))).2.2.2.2.2 (by decide) (by decide)
      (by decide) (by decide) (by decide)
    rw [h]
    decide

/-! ## Claim C8 — fetch retry, backoff, and failure isolation -/

/-- Outcomes the source treats as retryable: transport failures (timeouts,
connection errors) and HTTP statuses that are neither 2xx nor 404. -/
def retryableOutcome : FetchOutcome → Bool
  | FetchOutcome.failure => true
  | FetchOutcome.success st => !httpOk st && st != 404

/-- Exhaustion: when every attempt up to the retry bound is retryable the
loop throws after `retries + 1` attempts, having slept the linear
backoffs `rd·(attempt+1), …, rd·retries` between attempts. -/
theorem fetchFrom_exhaust (env : Nat → FetchOutcome) (rd : Nat)
    (retries : Nat) : ∀ (n attempt : Nat), retries - attempt = n →
    attempt ≤ retries →
    (∀ i, attempt ≤ i → i ≤ retries → retryableOutcome (env i) = true) →
    fetchFrom env rd retries attempt =
      (Except.error (),
        (List.range' (attempt + 1) n).map (fun k => rd * k)) := by
  intro n
  induction n with
  | zero =>
    intro attempt hn hle hretry
    have hr := hretry attempt (Nat.le_refl _) hle
    rw [fetchFrom]
    have hnlt : ¬ attempt < retries := by omega
    rcases he : env attempt with st | _
    · rw [he] at hr
      simp only [retryableOutcome] at hr
      simp only [he, hr, if_true]
      simp [hnlt]
    · simp only [he]
      simp [hnlt]
  | succ n ih =>
    intro attempt hn hle hretry
    have hlt : attempt < retries := by omega
    have hnext : fetchFrom env rd retries (attempt + 1) =
        (Except.error (),
          (List.range' (attempt + 1 + 1) n).map (fun k => rd * k)) := by
      apply ih (attempt + 1) (by omega) (by omega)
      intro i h1 h2
      exact hretry i (by omega) h2
    have hr := hretry attempt (Nat.le_refl _) (by omega)
    have hmap : (List.range' (attempt + 1) (n + 1)).map
        (fun k => rd * k) =
        rd * (attempt + 1) ::
          (List.range' (attempt + 1 + 1) n).map (fun k => rd * k) := by
      rw [List.range'_succ, List.map_cons]
    rw [fetchFrom]
    rcases he : env attempt with st | _
    · rw [he] at hr
      simp only [retryableOutcome] at hr
      simp only [he, hr, if_true, hlt, dif_pos, hnext, hmap]
    · simp only [he, hlt, dif_pos, hnext, hmap]

/-- Success: when the attempts before `j ≤ retries` are all retryable and
attempt `j` returns an ok or 404 response, the loop returns that response
to the caller at attempt `j` with exactly the backoffs
`rd·(attempt+1), …, rd·j` slept — in particular a 404 at the first
attempt is returned without any retry. -/
theorem fetchFrom_success (env : Nat → FetchOutcome) (rd : Nat)
    (retries j st : Nat) (hj : j ≤ retries)
    (hbefore : ∀ i, i < j → retryableOutcome (env i) = true)
    (hok : env j = FetchOutcome.success st)
    (hst : httpOk st = true ∨ st = 404) :
    ∀ (n attempt : Nat), j - attempt = n → attempt ≤ j →
    fetchFrom env rd retries attempt =
      (Except.ok st,
        (List.range' (attempt + 1) n).map (fun k => rd * k)) := by
  intro n
  induction n with
  | zero =>
    intro attempt hn hle
    have heq : attempt = j := by omega
    subst heq
    rw [fetchFrom]
    have hcond : (!httpOk st && st != 404) = false := by
      rcases hst with h | h
      · simp [h]
      · simp [h]
    simp only [hok, hcond, Bool.false_eq_true, if_false]
    simp
  | succ n ih =>
    intro attempt hn hle
    have hltj : attempt < j := by omega
    have hlt : attempt < retries := by omega
    have hr := hbefore attempt hltj
    have hnext : fetchFrom env rd retries (attempt + 1) =
        (Except.ok st,
          (List.range' (attempt + 1 + 1) n).map (fun k => rd * k)) :=
      ih (attempt + 1) (by omega) (by omega)
    have hmap : (List.range' (attempt + 1) (n + 1)).map
        (fun k => rd * k) =
        rd * (attempt + 1) ::
          (List.range' (attempt + 1 + 1) n).map (fun k => rd * k) := by
      rw [List.range'_succ, List.map_cons]
    rw [fetchFrom]
    rcases he : env attempt with st2 | _
    · rw [he] at hr
      simp only [retryableOutcome] at hr
      simp only [he, hr, if_true, hlt, dif_pos, hnext, hmap]
    · simp only [he, hlt, dif_pos, hnext, hmap]

/-- Delay list conversion: backoffs slept from the first attempt are
`rd·1, …, rd·j`. -/
theorem rangeDelays (rd j : Nat) :
    (List.range' 1 j).map (fun k => rd * k) =
      (List.range j).map (fun i => rd * (i + 1)) := by
  rw [List.range'_eq_map_range, List.map_map]
  apply List.map_congr_left
  intro i _
  simp only [Function.comp]
  congr 1
  omega

/-- C8: each fetch is retried up to the fixed bound (`retries + 1`
attempts) with linearly increasing backoff `retryDelayMs · attemptNumber`;
an ok or 404 response ends the loop at once (in particular 404 is
returned to the caller without retry, while other non-2xx statuses are
retried); when every attempt fails the call throws after sleeping
exactly the backoffs `rd·1, …, rd·retries`; and in the
`Promise.allSettled` collection a rejected task contributes nothing while
its sibling tasks' contributions are unaffected — a task failure is never
fatal to the run. -/
theorem C8_fetch_retry (env : Nat → FetchOutcome) (rd retries j st : Nat)
    (rs1 rs2 : List (Except String (List Event))) (msg : String) :
    ((j ≤ retries) → (∀ i, i < j → retryableOutcome (env i) = true) →
      env j = FetchOutcome.success st → (httpOk st = true ∨ st = 404) →
      fetchWithTimeout env rd retries =
        (Except.ok st, (List.range j).map (fun i => rd * (i + 1)))) ∧
    ((∀ i, i ≤ retries → retryableOutcome (env i) = true) →
      fetchWithTimeout env rd retries =
        (Except.error (),
          (List.range retries).map (fun i => rd * (i + 1)))) ∧
    (collectSettled (rs1 ++ Except.error msg :: rs2) =
      collectSettled rs1 ++ collectSettled rs2) := by
  refine ⟨?_, ?_, ?_⟩
  · intro hj hbefore hok hst
    have h := fetchFrom_success env rd retries j st hj hbefore hok hst j 0
      (by omega) (by omega)
    rw [fetchWithTimeout, h, Nat.zero_add, rangeDelays]
  · intro hall
    have h := fetchFrom_exhaust env rd retries retries 0 (by omega)
      (by omega) (fun i _ h2 => hall i h2)
    rw [fetchWithTimeout, h, Nat.zero_add, rangeDelays]
  · simp [collectSettled, List.flatMap_append]

/-- C8 witness: a 404 at the first attempt is returned without retry; a
permanently failing endpoint with two retries exhausts after backoffs
`500, 1000`; a rejected middle task contributes nothing. -/
theorem C8_fetch_retry_witness :
    fetchWithTimeout (fun _ => FetchOutcome.success 404) 500 2 =
      (Except.ok 404, []) ∧
    fetchWithTimeout (fun _ => FetchOutcome.failure) 500 2 =
      (Except.error (), [500, 1000]) ∧
    collectSettled [Except.ok [⟨"A", "V", "u", none, none⟩],
        Except.error ("boom"), Except.ok [⟨"B", "W", "w", none, none⟩]] =
      [⟨"A", "V", "u", none, none⟩, ⟨"B", "W", "w", none, none⟩] := by
  refine ⟨?_, ?_, ?_⟩
  · have h := (C8_fetch_retry (fun _ => FetchOutcome.success 404) 500 2 0
      404 [] [] ("")).1 (by omega) (by omega) rfl (Or.inr rfl)
    simpa using h
  · have h := (C8_fetch_retry (fun _ => FetchOutcome.failure) 500 2 0
      0 [] [] ("")).2.1 (fun i _ => rfl)
    rw [h]
    rfl
  · have h := (C8_fetch_retry (fun _ => FetchOutcome.failure) 500 2 0 0
      [Except.ok [⟨"A", "V", "u", none, none⟩]]
      [Except.ok [⟨"B", "W", "w", none, none⟩]] ("boom")).2.2
    have hl : ([Except.ok [(⟨"A", "V", "u", none, none⟩ : Event)],
        Except.error ("boom"),
        Except.ok [(⟨"B", "W", "w", none, none⟩ : Event)]] :
          List (Except String (List Event))) =
        [Except.ok [⟨"A", "V", "u", none, none⟩]] ++
          Except.error ("boom") ::
            [Except.ok [⟨"B", "W", "w", none, none⟩]] := rfl
    rw [hl, h]
    rfl
